import Mathlib

/-!
# Verification of the Crucible Terraform provider's reconciliation engine and API client

Shallow embedding of the state reconciliation / diffing engine for the nested
"view" resource and of the authenticated API client (`internal/client`,
`internal/api`, the view resource in `internal/provider`), with proofs of the
specification's testable properties.
-/

namespace Crucible

/-! ## Generic keyed-collection diff (updateApps / updateTeams)

The SDK v1 view resource stores nested collections as lists of maps. Each map
carries a stable identity field (`app_id` for applications, `team_id` for
teams). `updateApps` and `updateTeams` run the same single-pass diff over the
old (remembered) and current (desired) lists. We model a state map as an
`Entry`: its identity-field value (`key`) plus the remaining field values
(`fields`, an arbitrary type with decidable equality). `reflect.DeepEqual` on
two maps that agree on the identity field is equality of the `Entry` values. -/

structure Entry (V : Type) where
  key : String
  fields : V
deriving DecidableEq, Repr

/-- Modelled from the spec: `util.PairInList` (the `internal/util` package is
not part of the provided sources; only its call sites in `updateApps` and
`updateTeams` are). Per the spec's diff algorithm, an entry's key is looked up
in the other collection: `PairInList(list, k, v)` is true when some map in
`list` has the pair `k → v`; here the key field is fixed by the `Entry`
representation. -/
def pairInList {V : Type} (l : List (Entry V)) (value : String) : Bool :=
  l.any (fun e => e.key == value)

/-- The `toDelete` list computed by `updateApps`/`updateTeams`: ids of old
entries whose key no longer occurs in the current collection (first loop,
`if !util.PairInList(current, key, value)` branch). -/
def diffToDelete {V : Type} (old curr : List (Entry V)) : List String :=
  (old.filter (fun e => !pairInList curr e.key)).map Entry.key

/-- The `toUpdate` list: for each old entry whose key survives, every current
entry with the same key that differs (`reflect.DeepEqual` fails) is marked for
update, carrying the current values (first loop, `else` branch with its inner
scan of `current`). -/
def diffToUpdate {V : Type} [DecidableEq V] (old curr : List (Entry V)) :
    List (Entry V) :=
  old.flatMap (fun e =>
    if pairInList curr e.key then
      curr.filter (fun c => c.key == e.key && c != e)
    else [])

/-- The `toCreate` list: current entries whose key is absent from the old
collection (second loop). `updateApps` additionally overwrites the server id
of each created entry with a fresh UUID before the create call; that happens
after selection and does not affect which entries are marked. -/
def diffToCreate {V : Type} (old curr : List (Entry V)) : List (Entry V) :=
  curr.filter (fun c => !pairInList old c.key)

/-- The `oldUpdated` list kept by `updateTeams` alongside `toUpdate`: the old
version of every team marked for update, appended in the same inner scan, so
the two lists line up index by index. -/
def diffOldUpdated {V : Type} [DecidableEq V] (old curr : List (Entry V)) :
    List (Entry V) :=
  old.flatMap (fun e =>
    if pairInList curr e.key then
      (curr.filter (fun c => c.key == e.key && c != e)).map (fun _ => e)
    else [])

theorem pairInList_iff {V : Type} (l : List (Entry V)) (v : String) :
    pairInList l v = true ↔ v ∈ l.map Entry.key := by
  unfold pairInList
  rw [List.any_eq_true]
  constructor
  · rintro ⟨e, he, hk⟩
    exact List.mem_map.mpr ⟨e, he, by simpa using hk⟩
  · intro h
    rcases List.mem_map.mp h with ⟨e, he, hk⟩
    exact ⟨e, he, by simp [hk]⟩

theorem mem_diffToDelete {V : Type} (old curr : List (Entry V)) (k : String) :
    k ∈ diffToDelete old curr ↔
      (∃ e ∈ old, e.key = k) ∧ k ∉ curr.map Entry.key := by
  constructor
  · intro h
    rcases List.mem_map.mp h with ⟨e, he, hk⟩
    rcases List.mem_filter.mp he with ⟨heo, hnp⟩
    refine ⟨⟨e, heo, hk⟩, ?_⟩
    intro hmem
    rw [Bool.not_eq_true', ← Bool.not_eq_true] at hnp
    exact hnp ((pairInList_iff curr e.key).mpr (hk ▸ hmem))
  · rintro ⟨⟨e, heo, hk⟩, hnot⟩
    refine List.mem_map.mpr ⟨e, List.mem_filter.mpr ⟨heo, ?_⟩, hk⟩
    simp only [Bool.not_eq_true']
    rw [← Bool.not_eq_true]
    intro hp
    exact hnot (hk ▸ (pairInList_iff curr e.key).mp hp)

theorem mem_diffToCreate {V : Type} (old curr : List (Entry V))
    (c : Entry V) :
    c ∈ diffToCreate old curr ↔ c ∈ curr ∧ c.key ∉ old.map Entry.key := by
  constructor
  · intro h
    rcases List.mem_filter.mp h with ⟨hc, hnp⟩
    refine ⟨hc, ?_⟩
    intro hmem
    rw [Bool.not_eq_true', ← Bool.not_eq_true] at hnp
    exact hnp ((pairInList_iff old c.key).mpr hmem)
  · rintro ⟨hc, hnot⟩
    refine List.mem_filter.mpr ⟨hc, ?_⟩
    simp only [Bool.not_eq_true']
    rw [← Bool.not_eq_true]
    intro hp
    exact hnot ((pairInList_iff old c.key).mp hp)

theorem mem_diffToUpdate {V : Type} [DecidableEq V]
    (old curr : List (Entry V)) (c : Entry V) :
    c ∈ diffToUpdate old curr ↔
      ∃ e ∈ old, c ∈ curr ∧ c.key = e.key ∧ c ≠ e := by
  unfold diffToUpdate
  rw [List.mem_flatMap]
  constructor
  · rintro ⟨e, he, hc⟩
    by_cases hp : pairInList curr e.key
    · rw [if_pos hp] at hc
      rcases List.mem_filter.mp hc with ⟨hcc, hcond⟩
      simp only [Bool.and_eq_true] at hcond
      exact ⟨e, he, hcc, by simpa using hcond.1, by simpa using hcond.2⟩
    · rw [if_neg hp] at hc
      exact absurd hc (List.not_mem_nil c)
  · rintro ⟨e, he, hcc, hkey, hne⟩
    refine ⟨e, he, ?_⟩
    have hp : pairInList curr e.key = true :=
      (pairInList_iff curr e.key).mpr
        (hkey ▸ List.mem_map.mpr ⟨c, hcc, rfl⟩)
    rw [if_pos hp]
    refine List.mem_filter.mpr ⟨hcc, ?_⟩
    simp only [Bool.and_eq_true]
    exact ⟨by simpa using hkey, by simpa using hne⟩

/-- In a collection whose identity-field values are pairwise distinct,
filtering on the key of a member recovers exactly that member. -/
theorem filter_key_eq_of_nodup {V : Type} (l : List (Entry V))
    (h : (l.map Entry.key).Nodup) (e : Entry V) (he : e ∈ l) :
    l.filter (fun c => c.key == e.key) = [e] := by
  induction l with
  | nil => exact absurd he (List.not_mem_nil e)
  | cons a l ih =>
    rw [List.map_cons, List.nodup_cons] at h
    rcases List.mem_cons.mp he with rfl | hmem
    · rw [List.filter_cons_of_pos (by simp)]
      have : l.filter (fun c => c.key == e.key) = [] := by
        apply List.filter_eq_nil_iff.mpr
        intro c hc hck
        exact h.1 (List.mem_map.mpr ⟨c, hc, by simpa using hck⟩)
      rw [this]
    · have hne : a.key ≠ e.key := by
        intro hk
        exact h.1 (hk ▸ List.mem_map.mpr ⟨e, hmem, rfl⟩)
      rw [List.filter_cons_of_neg (by simpa using hne)]
      exact ih h.2 hmem

theorem diffToDelete_self {V : Type} (l : List (Entry V)) :
    diffToDelete l l = [] := by
  unfold diffToDelete
  rw [List.filter_eq_nil_iff.mpr, List.map_nil]
  intro e he
  simp only [Bool.not_eq_eq_eq_not, Bool.not_true, Bool.not_eq_false]
  exact (pairInList_iff l e.key).mpr (List.mem_map.mpr ⟨e, he, rfl⟩)

theorem diff_inner_filter_self {V : Type} [DecidableEq V]
    (l : List (Entry V)) (h : (l.map Entry.key).Nodup) (e : Entry V)
    (he : e ∈ l) :
    l.filter (fun c => c.key == e.key && c != e) = [] := by
  have hf : l.filter (fun c => c.key == e.key && c != e) =
      (l.filter (fun c => c.key == e.key)).filter (fun c => c != e) := by
    rw [List.filter_filter]
    exact List.filter_congr (fun c _ => Bool.and_comm _ _)
  rw [hf, filter_key_eq_of_nodup l h e he]
  simp

theorem diffToUpdate_self {V : Type} [DecidableEq V] (l : List (Entry V))
    (h : (l.map Entry.key).Nodup) : diffToUpdate l l = [] := by
  unfold diffToUpdate
  apply List.flatMap_eq_nil_iff.mpr
  intro e he
  rw [if_pos ((pairInList_iff l e.key).mpr (List.mem_map.mpr ⟨e, he, rfl⟩))]
  exact diff_inner_filter_self l h e he

theorem diffOldUpdated_self {V : Type} [DecidableEq V] (l : List (Entry V))
    (h : (l.map Entry.key).Nodup) : diffOldUpdated l l = [] := by
  unfold diffOldUpdated
  apply List.flatMap_eq_nil_iff.mpr
  intro e he
  rw [if_pos ((pairInList_iff l e.key).mpr (List.mem_map.mpr ⟨e, he, rfl⟩)),
    diff_inner_filter_self l h e he, List.map_nil]

/-- Two members of a collection with pairwise-distinct identity-field values
that share a key are the same entry. -/
theorem eq_of_key_eq_of_nodup {V : Type} (l : List (Entry V))
    (h : (l.map Entry.key).Nodup) (a b : Entry V) (ha : a ∈ l) (hb : b ∈ l)
    (hk : a.key = b.key) : a = b := by
  have hfil := filter_key_eq_of_nodup l h a ha
  have hbmem : b ∈ l.filter (fun c => c.key == a.key) :=
    List.mem_filter.mpr ⟨hb, by simp [hk]⟩
  rw [hfil, List.mem_singleton] at hbmem
  exact hbmem.symm

theorem mem_keys_diffToUpdate {V : Type} [DecidableEq V]
    (old curr : List (Entry V)) (k : String) :
    k ∈ (diffToUpdate old curr).map Entry.key ↔
      ∃ e ∈ old, ∃ c ∈ curr, c.key = k ∧ e.key = k ∧ c ≠ e := by
  constructor
  · intro h
    rcases List.mem_map.mp h with ⟨c, hc, hck⟩
    rcases (mem_diffToUpdate old curr c).mp hc with ⟨e, he, hcc, hkey, hne⟩
    exact ⟨e, he, c, hcc, hck, hkey ▸ hck, hne⟩
  · rintro ⟨e, he, c, hc, hck, hek, hne⟩
    exact List.mem_map.mpr
      ⟨c, (mem_diffToUpdate old curr c).mpr ⟨e, he, hc, hck.trans hek.symm, hne⟩, hck⟩

theorem diffToCreate_self {V : Type} (l : List (Entry V)) :
    diffToCreate l l = [] := by
  unfold diffToCreate
  apply List.filter_eq_nil_iff.mpr
  intro e he
  simp only [Bool.not_eq_eq_eq_not, Bool.not_true, Bool.not_eq_false]
  exact (pairInList_iff l e.key).mpr (List.mem_map.mpr ⟨e, he, rfl⟩)

/-- C1: for every pair of collections (old, new) keyed by a stable identity
field (`app_id` for applications, `team_id` for teams), the diff computed by
`updateApps`/`updateTeams` partitions the keys: every key in old but not new is
in `toDelete`; every key in new but not old is in `toCreate`; every key in both
whose field values differ is in `toUpdate`; every key in both with identical
field values is in none of the three sets; and the three sets are pairwise
disjoint. -/
theorem claim_C1_diff_partition {V : Type} [DecidableEq V]
    (old curr : List (Entry V))
    (hold : (old.map Entry.key).Nodup) (hcurr : (curr.map Entry.key).Nodup) :
    (∀ k, k ∈ diffToDelete old curr ↔
        k ∈ old.map Entry.key ∧ k ∉ curr.map Entry.key) ∧
    (∀ k, k ∈ (diffToCreate old curr).map Entry.key ↔
        k ∈ curr.map Entry.key ∧ k ∉ old.map Entry.key) ∧
    (∀ e c, e ∈ old → c ∈ curr → e.key = c.key → e ≠ c →
        e.key ∈ (diffToUpdate old curr).map Entry.key) ∧
    (∀ e c, e ∈ old → c ∈ curr → e.key = c.key → e = c →
        e.key ∉ diffToDelete old curr ∧
        e.key ∉ (diffToUpdate old curr).map Entry.key ∧
        e.key ∉ (diffToCreate old curr).map Entry.key) ∧
    (∀ k, ¬(k ∈ diffToDelete old curr ∧
        k ∈ (diffToCreate old curr).map Entry.key)) ∧
    (∀ k, ¬(k ∈ diffToDelete old curr ∧
        k ∈ (diffToUpdate old curr).map Entry.key)) ∧
    (∀ k, ¬(k ∈ (diffToCreate old curr).map Entry.key ∧
        k ∈ (diffToUpdate old curr).map Entry.key)) := by
  have hdel : ∀ k, k ∈ diffToDelete old curr ↔
      k ∈ old.map Entry.key ∧ k ∉ curr.map Entry.key := by
    intro k
    rw [mem_diffToDelete]
    constructor
    · rintro ⟨⟨e, he, hk⟩, hnc⟩
      exact ⟨List.mem_map.mpr ⟨e, he, hk⟩, hnc⟩
    · rintro ⟨hok, hnc⟩
      rcases List.mem_map.mp hok with ⟨e, he, hk⟩
      exact ⟨⟨e, he, hk⟩, hnc⟩
  have hcre : ∀ k, k ∈ (diffToCreate old curr).map Entry.key ↔
      k ∈ curr.map Entry.key ∧ k ∉ old.map Entry.key := by
    intro k
    constructor
    · intro h
      rcases List.mem_map.mp h with ⟨c, hc, hk⟩
      rcases (mem_diffToCreate old curr c).mp hc with ⟨hcc, hno⟩
      exact ⟨List.mem_map.mpr ⟨c, hcc, hk⟩, hk ▸ hno⟩
    · rintro ⟨hck, hno⟩
      rcases List.mem_map.mp hck with ⟨c, hc, hk⟩
      exact List.mem_map.mpr
        ⟨c, (mem_diffToCreate old curr c).mpr ⟨hc, hk ▸ hno⟩, hk⟩
  have hupd : ∀ e c, e ∈ old → c ∈ curr → e.key = c.key → e ≠ c →
      e.key ∈ (diffToUpdate old curr).map Entry.key := by
    intro e c he hc hk hne
    exact (mem_keys_diffToUpdate old curr e.key).mpr
      ⟨e, he, c, hc, hk.symm, rfl, fun h => hne h.symm⟩
  refine ⟨hdel, hcre, hupd, ?_, ?_, ?_, ?_⟩
  · intro e c he hc hk heq
    refine ⟨?_, ?_, ?_⟩
    · intro h
      exact ((hdel e.key).mp h).2 (hk ▸ List.mem_map.mpr ⟨c, hc, rfl⟩)
    · intro h
      rcases (mem_keys_diffToUpdate old curr e.key).mp h with
        ⟨e₂, he₂, c₂, hc₂, hck₂, hek₂, hne₂⟩
      have he₂e : e₂ = e := eq_of_key_eq_of_nodup old hold e₂ e he₂ he hek₂
      have hc₂c : c₂ = c :=
        eq_of_key_eq_of_nodup curr hcurr c₂ c hc₂ hc (hck₂.trans hk)
      exact hne₂ (hc₂c.trans (heq.symm.trans he₂e.symm))
    · intro h
      exact ((hcre e.key).mp h).2 (List.mem_map.mpr ⟨e, he, rfl⟩)
  · rintro k ⟨h1, h2⟩
    exact ((hcre k).mp h2).2 ((hdel k).mp h1).1
  · rintro k ⟨h1, h2⟩
    rcases (mem_keys_diffToUpdate old curr k).mp h2 with
      ⟨e, he, c, hc, hck, hek, hne⟩
    exact ((hdel k).mp h1).2 (List.mem_map.mpr ⟨c, hc, hck⟩)
  · rintro k ⟨h1, h2⟩
    rcases (mem_keys_diffToUpdate old curr k).mp h2 with
      ⟨e, he, c, hc, hck, hek, hne⟩
    exact ((hcre k).mp h1).2 (List.mem_map.mpr ⟨e, he, hek⟩)

/-- Witness for C1 at a concrete pair of collections: old has keys
`a` (unchanged), `b` (changed), `d` (removed); new additionally has key `c`
(created). -/
theorem claim_C1_diff_partition_witness :
    ((([⟨"a", 0⟩, ⟨"b", 1⟩, ⟨"d", 2⟩] : List (Entry Nat)).map
        Entry.key).Nodup ∧
      ((([⟨"a", 0⟩, ⟨"b", 7⟩, ⟨"c", 3⟩] : List (Entry Nat)).map
        Entry.key).Nodup)) ∧
    ((∀ k, k ∈ diffToDelete
          ([⟨"a", 0⟩, ⟨"b", 1⟩, ⟨"d", 2⟩] : List (Entry Nat))
          [⟨"a", 0⟩, ⟨"b", 7⟩, ⟨"c", 3⟩] ↔
        k ∈ ([⟨"a", 0⟩, ⟨"b", 1⟩, ⟨"d", 2⟩] : List (Entry Nat)).map
          Entry.key ∧
        k ∉ ([⟨"a", 0⟩, ⟨"b", 7⟩, ⟨"c", 3⟩] : List (Entry Nat)).map
          Entry.key) ∧
      (∀ k, k ∈ (diffToCreate
          ([⟨"a", 0⟩, ⟨"b", 1⟩, ⟨"d", 2⟩] : List (Entry Nat))
          [⟨"a", 0⟩, ⟨"b", 7⟩, ⟨"c", 3⟩]).map Entry.key ↔
        k ∈ ([⟨"a", 0⟩, ⟨"b", 7⟩, ⟨"c", 3⟩] : List (Entry Nat)).map
          Entry.key ∧
        k ∉ ([⟨"a", 0⟩, ⟨"b", 1⟩, ⟨"d", 2⟩] : List (Entry Nat)).map
          Entry.key) ∧
      (∀ e c, e ∈ ([⟨"a", 0⟩, ⟨"b", 1⟩, ⟨"d", 2⟩] : List (Entry Nat)) →
          c ∈ ([⟨"a", 0⟩, ⟨"b", 7⟩, ⟨"c", 3⟩] : List (Entry Nat)) →
          e.key = c.key → e ≠ c →
          e.key ∈ (diffToUpdate [⟨"a", 0⟩, ⟨"b", 1⟩, ⟨"d", 2⟩]
            [⟨"a", 0⟩, ⟨"b", 7⟩, ⟨"c", 3⟩]).map Entry.key) ∧
      (∀ e c, e ∈ ([⟨"a", 0⟩, ⟨"b", 1⟩, ⟨"d", 2⟩] : List (Entry Nat)) →
          c ∈ ([⟨"a", 0⟩, ⟨"b", 7⟩, ⟨"c", 3⟩] : List (Entry Nat)) →
          e.key = c.key → e = c →
          e.key ∉ diffToDelete [⟨"a", 0⟩, ⟨"b", 1⟩, ⟨"d", 2⟩]
            [⟨"a", 0⟩, ⟨"b", 7⟩, ⟨"c", 3⟩] ∧
          e.key ∉ (diffToUpdate [⟨"a", 0⟩, ⟨"b", 1⟩, ⟨"d", 2⟩]
            [⟨"a", 0⟩, ⟨"b", 7⟩, ⟨"c", 3⟩]).map Entry.key ∧
          e.key ∉ (diffToCreate [⟨"a", 0⟩, ⟨"b", 1⟩, ⟨"d", 2⟩]
            [⟨"a", 0⟩, ⟨"b", 7⟩, ⟨"c", 3⟩]).map Entry.key) ∧
      (∀ k, ¬(k ∈ diffToDelete
          ([⟨"a", 0⟩, ⟨"b", 1⟩, ⟨"d", 2⟩] : List (Entry Nat))
          [⟨"a", 0⟩, ⟨"b", 7⟩, ⟨"c", 3⟩] ∧
        k ∈ (diffToCreate [⟨"a", 0⟩, ⟨"b", 1⟩, ⟨"d", 2⟩]
          [⟨"a", 0⟩, ⟨"b", 7⟩, ⟨"c", 3⟩]).map Entry.key)) ∧
      (∀ k, ¬(k ∈ diffToDelete
          ([⟨"a", 0⟩, ⟨"b", 1⟩, ⟨"d", 2⟩] : List (Entry Nat))
          [⟨"a", 0⟩, ⟨"b", 7⟩, ⟨"c", 3⟩] ∧
        k ∈ (diffToUpdate [⟨"a", 0⟩, ⟨"b", 1⟩, ⟨"d", 2⟩]
          [⟨"a", 0⟩, ⟨"b", 7⟩, ⟨"c", 3⟩]).map Entry.key)) ∧
      (∀ k, ¬(k ∈ (diffToCreate
          ([⟨"a", 0⟩, ⟨"b", 1⟩, ⟨"d", 2⟩] : List (Entry Nat))
          [⟨"a", 0⟩, ⟨"b", 7⟩, ⟨"c", 3⟩]).map Entry.key ∧
        k ∈ (diffToUpdate [⟨"a", 0⟩, ⟨"b", 1⟩, ⟨"d", 2⟩]
          [⟨"a", 0⟩, ⟨"b", 7⟩, ⟨"c", 3⟩]).map Entry.key))) :=
  ⟨⟨by decide, by decide⟩,
    claim_C1_diff_partition
      [⟨"a", 0⟩, ⟨"b", 1⟩, ⟨"d", 2⟩] [⟨"a", 0⟩, ⟨"b", 7⟩, ⟨"c", 3⟩]
      (by decide) (by decide)⟩

/-! ## Concrete nested collections (structs.UserInfo, structs.AppInstance,
team and application state maps)

`structs.UserInfo` carries a user id and an optional per-team role; in the
SDK v1 state the role is a schema string (empty when unset), so the
`interface{}`-typed `Role` field always holds a string at these call sites.
`structs.AppInstance` carries a name, a server id, a display order and the
resolved parent application id. `DisplayOrder` is a Go `float64`; Terraform
configuration can only put finite decimal values there, so we model it as an
integer-valued order with decidable equality (the code only ever compares it
for equality and passes it through). -/

structure UserInfo where
  id : String
  role : String
deriving DecidableEq, Repr

structure AppInstance where
  name : String
  id : String
  displayOrder : Int
  parent : String
deriving DecidableEq, Repr

/-- `structs.UserHasID`: whether some user in the slice has the given id. -/
def userHasID (arr : List UserInfo) (id : String) : Bool :=
  arr.any (fun u => u.id == id)

/-- `structs.InstanceHasID`: whether some instance in the slice has the given
id. -/
def instanceHasID (arr : List AppInstance) (id : String) : Bool :=
  arr.any (fun i => i.id == id)

/-- Modelled from the spec: `util.StrSliceContains` (the `internal/util`
package is not part of the provided sources; only its call sites in
`updateTeams` are). Per the spec's permission diffing ("a per-team difference
of two name sets"), it is string-slice membership. -/
def strSliceContains (l : List String) (s : String) : Bool :=
  l.any (fun x => x == s)

/-- The non-identity fields of a team state map: everything `team_id` keys. -/
structure TeamFields where
  name : String
  role : String
  permissions : List String
  users : List UserInfo
  appInstances : List AppInstance
deriving DecidableEq, Repr

/-- A team state map: `team_id` plus the remaining fields. -/
abbrev TeamEntry := Entry TeamFields

/-- The non-identity fields of an application state map (SDK v1 schema:
`embeddable` and `load_in_background` are strings there). -/
structure AppFields where
  name : String
  url : String
  icon : String
  embeddable : String
  loadInBackground : String
  appTemplateId : String
  vId : String
deriving DecidableEq, Repr

/-- An application state map: `app_id` plus the remaining fields. -/
abbrev AppEntry := Entry AppFields

/-- `filter_key_eq_of_nodup` for an arbitrary string-valued key function. -/
theorem filter_idfun_eq_of_nodup {α : Type} (key : α → String) (l : List α)
    (h : (l.map key).Nodup) (a : α) (ha : a ∈ l) :
    l.filter (fun x => key x == key a) = [a] := by
  induction l with
  | nil => exact absurd ha (List.not_mem_nil a)
  | cons b l ih =>
    rw [List.map_cons, List.nodup_cons] at h
    rcases List.mem_cons.mp ha with rfl | hmem
    · rw [List.filter_cons_of_pos (by simp)]
      have : l.filter (fun x => key x == key a) = [] := by
        apply List.filter_eq_nil_iff.mpr
        intro c hc hck
        exact h.1 (List.mem_map.mpr ⟨c, hc, by simpa using hck⟩)
      rw [this]
    · have hne : key b ≠ key a := by
        intro hk
        exact h.1 (hk ▸ List.mem_map.mpr ⟨a, hmem, rfl⟩)
      rw [List.filter_cons_of_neg (by simpa using hne)]
      exact ih h.2 hmem

theorem eq_of_idfun_eq_of_nodup {α : Type} (key : α → String) (l : List α)
    (h : (l.map key).Nodup) (a b : α) (ha : a ∈ l) (hb : b ∈ l)
    (hk : key a = key b) : a = b := by
  have hfil := filter_idfun_eq_of_nodup key l h a ha
  have hbmem : b ∈ l.filter (fun x => key x == key a) :=
    List.mem_filter.mpr ⟨hb, by simp [hk]⟩
  rw [hfil, List.mem_singleton] at hbmem
  exact hbmem.symm

/-! ## Nested user diff (`updateUsers`)

`updateUsers` walks the `oldUpdated`/`toUpdate` pairs (the old and current
versions of every team marked for update). For each pair it computes, over the
team's user lists:
user removals (`removedUsers`, keyed by the current team's id, with the
special case that an empty current list removes every old user), user
additions (`toAdd`, one `AddUsersToTeam` POST per id), and role-set calls
(`api.SetUserRole`, issued inline for a current user also present in the old
list whose role differs from the old version found by a last-match scan). -/

structure UserOps where
  removed : List (String × String)
  added : List (String × String)
  roleSet : List (String × String)
deriving DecidableEq, Repr

def emptyUserOps : UserOps := ⟨[], [], []⟩

/-- The per-team body of `updateUsers` for one `oldUpdated`/`toUpdate` pair. -/
def updateUsersPair (oldTeam currTeam : TeamEntry) : UserOps :=
  let os := oldTeam.fields.users
  let cs := currTeam.fields.users
  let removed :=
    if cs.length == 0 then os.map (fun u => (currTeam.key, u.id))
    else (os.filter (fun u => !userHasID cs u.id)).map
      (fun u => (currTeam.key, u.id))
  let added := (cs.filter (fun u => !userHasID os u.id)).map
    (fun u => (currTeam.key, u.id))
  let roleSet := cs.filterMap (fun cu =>
    if userHasID os cu.id then
      match (os.filter (fun ou => ou.id == cu.id)).getLast? with
      | some ou => if ou.role != cu.role then some (oldTeam.key, cu.id)
                   else none
      | none => none
    else none)
  ⟨removed, added, roleSet⟩

/-- `updateUsers` over all marked-changed team pairs, accumulating the ops the
way the Go loop accumulates `removedUsers`, the `AddUsersToTeam` calls and the
inline `SetUserRole` calls. -/
def updateUsersOps (oldUpdated toUpdate : List TeamEntry) : UserOps :=
  (oldUpdated.zip toUpdate).foldl
    (fun acc p =>
      ⟨acc.removed ++ (updateUsersPair p.1 p.2).removed,
       acc.added ++ (updateUsersPair p.1 p.2).added,
       acc.roleSet ++ (updateUsersPair p.1 p.2).roleSet⟩)
    emptyUserOps

/-- C2: for every team present in both the old and new state and marked
changed (an `oldUpdated`/`toUpdate` pair), the nested user diff issues a
role-set remote call for a user present in both old and new user lists exactly
when that user's role value differs between old and new; and when the new user
list is empty, every user from the old list is removed from the team (the
zero-remaining-users special case), not a no-op. -/
theorem claim_C2_nested_user_diff (oldTeam currTeam : TeamEntry)
    (hold : (oldTeam.fields.users.map UserInfo.id).Nodup)
    (hcurr : (currTeam.fields.users.map UserInfo.id).Nodup) :
    (∀ cu ∈ currTeam.fields.users, ∀ ou ∈ oldTeam.fields.users,
        ou.id = cu.id →
        ((oldTeam.key, cu.id) ∈ (updateUsersPair oldTeam currTeam).roleSet ↔
          ou.role ≠ cu.role)) ∧
    (currTeam.fields.users = [] →
        (updateUsersPair oldTeam currTeam).removed =
          oldTeam.fields.users.map (fun u => (currTeam.key, u.id))) := by
  constructor
  · intro cu hcu ou hou hid
    have hfil : oldTeam.fields.users.filter (fun x => x.id == cu.id) =
        [ou] := by
      have hbase := filter_idfun_eq_of_nodup UserInfo.id
        oldTeam.fields.users hold ou hou
      rw [← hbase]
      exact List.filter_congr (fun x _ => by rw [hid])
    have hhas : userHasID oldTeam.fields.users cu.id = true := by
      unfold userHasID
      rw [List.any_eq_true]
      exact ⟨ou, hou, by simp [hid]⟩
    constructor
    · intro hmem
      simp only [updateUsersPair] at hmem
      rcases List.mem_filterMap.mp hmem with ⟨cu', hcu', hf⟩
      by_cases hh : userHasID oldTeam.fields.users cu'.id = true
      · rw [if_pos hh] at hf
        cases hml : (oldTeam.fields.users.filter
            (fun x => x.id == cu'.id)).getLast? with
        | none => rw [hml] at hf; exact absurd hf (by simp)
        | some ou' =>
          rw [hml] at hf
          have hf' : (if (ou'.role != cu'.role) = true then
              some (oldTeam.key, cu'.id) else none) =
              some (oldTeam.key, cu.id) := hf
          by_cases hr : (ou'.role != cu'.role) = true
          · rw [if_pos hr] at hf'
            have hpair := Option.some.inj hf'
            have hid' : cu'.id = cu.id := congrArg Prod.snd hpair
            have hcu'cu : cu' = cu := eq_of_idfun_eq_of_nodup UserInfo.id
              currTeam.fields.users hcurr cu' cu hcu' hcu hid'
            subst hcu'cu
            rw [hfil] at hml
            have hou' : ou = ou' := by simpa using hml
            subst hou'
            simpa using hr
          · rw [if_neg hr] at hf'
            exact absurd hf' (by simp)
      · rw [if_neg hh] at hf
        exact absurd hf (by simp)
    · intro hne
      simp only [updateUsersPair]
      refine List.mem_filterMap.mpr ⟨cu, hcu, ?_⟩
      rw [if_pos hhas, hfil]
      simp only [List.getLast?_singleton]
      rw [if_pos (by simpa using hne)]
  · intro hempty
    simp [updateUsersPair, hempty]

/-- A concrete team pair: user `u1` changes role Member → Admin, `u2` keeps an
empty role. -/
def sampleOldTeam : TeamEntry :=
  ⟨"t1", ⟨"Alpha", "View Member", [], [⟨"u1", "Member"⟩, ⟨"u2", ""⟩], []⟩⟩

def sampleCurrTeam : TeamEntry :=
  ⟨"t1", ⟨"Alpha", "View Member", [], [⟨"u1", "Admin"⟩, ⟨"u2", ""⟩], []⟩⟩

/-- A concrete team pair whose current user list is empty. -/
def sampleOldTeamAllGone : TeamEntry :=
  ⟨"t2", ⟨"Bravo", "View Member", [], [⟨"u1", "Member"⟩], []⟩⟩

def sampleCurrTeamAllGone : TeamEntry :=
  ⟨"t2", ⟨"Bravo", "View Member", [], [], []⟩⟩

/-- Witness for C2 at the two concrete team pairs. -/
theorem claim_C2_nested_user_diff_witness :
    ((sampleOldTeam.fields.users.map UserInfo.id).Nodup ∧
     (sampleCurrTeam.fields.users.map UserInfo.id).Nodup ∧
     (sampleOldTeamAllGone.fields.users.map UserInfo.id).Nodup ∧
     (sampleCurrTeamAllGone.fields.users.map UserInfo.id).Nodup) ∧
    ((∀ cu ∈ sampleCurrTeam.fields.users,
        ∀ ou ∈ sampleOldTeam.fields.users, ou.id = cu.id →
        ((sampleOldTeam.key, cu.id) ∈
            (updateUsersPair sampleOldTeam sampleCurrTeam).roleSet ↔
          ou.role ≠ cu.role)) ∧
      (sampleCurrTeam.fields.users = [] →
        (updateUsersPair sampleOldTeam sampleCurrTeam).removed =
          sampleOldTeam.fields.users.map
            (fun u => (sampleCurrTeam.key, u.id)))) ∧
    ((∀ cu ∈ sampleCurrTeamAllGone.fields.users,
        ∀ ou ∈ sampleOldTeamAllGone.fields.users, ou.id = cu.id →
        ((sampleOldTeamAllGone.key, cu.id) ∈
            (updateUsersPair sampleOldTeamAllGone
              sampleCurrTeamAllGone).roleSet ↔
          ou.role ≠ cu.role)) ∧
      (sampleCurrTeamAllGone.fields.users = [] →
        (updateUsersPair sampleOldTeamAllGone sampleCurrTeamAllGone).removed =
          sampleOldTeamAllGone.fields.users.map
            (fun u => (sampleCurrTeamAllGone.key, u.id)))) :=
  ⟨⟨by decide, by decide, by decide, by decide⟩,
    claim_C2_nested_user_diff sampleOldTeam sampleCurrTeam
      (by decide) (by decide),
    claim_C2_nested_user_diff sampleOldTeamAllGone sampleCurrTeamAllGone
      (by decide) (by decide)⟩

/-! ## Permission diff, app-instance diff and the full update pass
(`updateTeams`, `updateApps`, `playerViewUpdate`)

`updateTeams` walks the `oldUpdated`/`toUpdate` pairs and computes, per team,
the permission names to remove (in old but not current) and to add (in current
but not old), keyed by the old team's id; `api.UpdateTeamPermissions` then
issues one POST/DELETE per name. `updateInstances` walks the same pairs and
computes instance deletions (all of them when the current team has zero
instances), additions (one `AddApplication` call per application whose name
matches a current instance absent from the old list) and updates (a current
instance retained by id whose name or display order changed against the
last-match old version). -/

/-- The `permsToRemove` map built by `updateTeams` (association list keyed by
the old team's id). -/
def permsToRemoveList (oldUpdated toUpdate : List TeamEntry) :
    List (String × List String) :=
  (oldUpdated.zip toUpdate).map (fun p =>
    (p.1.key, p.1.fields.permissions.filter
      (fun perm => !strSliceContains p.2.fields.permissions perm)))

/-- The `permsToAdd` map built by `updateTeams`. -/
def permsToAddList (oldUpdated toUpdate : List TeamEntry) :
    List (String × List String) :=
  (oldUpdated.zip toUpdate).map (fun p =>
    (p.1.key, p.2.fields.permissions.filter
      (fun perm => !strSliceContains p.1.fields.permissions perm)))

structure InstOps where
  deleted : List String
  added : List (String × String)
  updated : List (String × String)
deriving DecidableEq, Repr

def emptyInstOps : InstOps := ⟨[], [], []⟩

/-- The per-team body of `updateInstances` for one old/current pair, given the
view's current application state maps. -/
def updateInstancesPair (apps : List AppEntry) (oldTeam currTeam : TeamEntry) :
    InstOps :=
  let oi := oldTeam.fields.appInstances
  let ci := currTeam.fields.appInstances
  let deleted :=
    if ci.length == 0 then oi.map AppInstance.id
    else (oi.filter (fun x => !instanceHasID ci x.id)).map AppInstance.id
  let added := ci.flatMap (fun cI =>
    if !instanceHasID oi cI.id then
      (apps.filter (fun a => a.fields.name == cI.name)).map
        (fun a => (a.key, oldTeam.key))
    else [])
  let updated := ci.filterMap (fun cI =>
    if instanceHasID oi cI.id then
      match (oi.filter (fun o => o.id == cI.id)).getLast? with
      | some oI => if oI.name != cI.name || oI.displayOrder != cI.displayOrder
                   then some (cI.id, oldTeam.key) else none
      | none => none
    else none)
  ⟨deleted, added, updated⟩

/-- `updateInstances` over all marked-changed team pairs. -/
def updateInstancesOps (oldUpdated toUpdate : List TeamEntry)
    (apps : List AppEntry) : InstOps :=
  (oldUpdated.zip toUpdate).foldl
    (fun acc p =>
      ⟨acc.deleted ++ (updateInstancesPair apps p.1 p.2).deleted,
       acc.added ++ (updateInstancesPair apps p.1 p.2).added,
       acc.updated ++ (updateInstancesPair apps p.1 p.2).updated⟩)
    emptyInstOps

/-- The operation sets computed by one `updateApps` run. Every element of each
list is translated into (at least) one HTTP request by `api.DeleteApps`,
`api.UpdateApps` and `api.CreateApps`, which loop over their arguments; with
all three empty those loops issue no request. -/
structure AppsOps where
  toDelete : List String
  toUpdate : List AppEntry
  toCreate : List AppEntry
deriving DecidableEq, Repr

def emptyAppsOps : AppsOps := ⟨[], [], []⟩

def updateAppsOps (old curr : List AppEntry) : AppsOps :=
  ⟨diffToDelete old curr, diffToUpdate old curr, diffToCreate old curr⟩

/-- The operation sets computed by one `updateTeams` run (with the nested
`updateUsers`/`updateInstances` passes). Every element of each component is
translated into at least one HTTP request by the corresponding `api.*` loop
(`DeleteTeams`, `UpdateTeams`, `CreateTeams`, `UpdateTeamPermissions`,
`AddPermissionsToTeam`, `AddUsersToTeam`, `SetUserRole`, `RemoveUsers`,
`AddApplication`, `UpdateAppInstance`, `DeleteAppInstances`); with every
component empty those loops issue no request. -/
structure TeamsOps where
  toDelete : List String
  toUpdate : List TeamEntry
  toCreate : List TeamEntry
  permsToAdd : List (String × List String)
  permsToRemove : List (String × List String)
  userOps : UserOps
  instOps : InstOps
deriving DecidableEq, Repr

def emptyTeamsOps : TeamsOps :=
  ⟨[], [], [], [], [], emptyUserOps, emptyInstOps⟩

/-- One `updateTeams` run over the old and current team state, given the
current application state (read back from `d.Get("application")`). The
`toCreate` entries additionally get their app-instance parent ids resolved by
name against `apps` before `api.CreateTeams`; that rewrites fields of entries
already selected for creation and does not change which operations occur. -/
def updateTeamsOps (apps : List AppEntry) (old curr : List TeamEntry) :
    TeamsOps :=
  let oldUpd := diffOldUpdated old curr
  let toUpd := diffToUpdate old curr
  { toDelete := diffToDelete old curr
    toUpdate := toUpd
    toCreate := diffToCreate old curr
    permsToAdd := permsToAddList oldUpd toUpd
    permsToRemove := permsToRemoveList oldUpd toUpd
    userOps := updateUsersOps oldUpd toUpd
    instOps := updateInstancesOps oldUpd toUpd apps }

/-- The diff/apply portion of `playerViewUpdate`: `updateApps` runs only under
`d.HasChange("application")` (the old and new application state differ) and
then stores `toUpdate ++ toCreate` back as the local application state;
`updateTeams` runs only under `d.HasChange("team")` and reads the application
state left by the first step. In the real code the created applications carry
fresh UUIDs; that does not affect which operations are issued. -/
def playerViewUpdateDiffOps (oldApps newApps : List AppEntry)
    (oldTeams newTeams : List TeamEntry) : AppsOps × TeamsOps :=
  let appsOps := if oldApps ≠ newApps then updateAppsOps oldApps newApps
    else emptyAppsOps
  let appsState := if oldApps ≠ newApps then appsOps.toUpdate ++ appsOps.toCreate
    else newApps
  let teamsOps := if oldTeams ≠ newTeams then
    updateTeamsOps appsState oldTeams newTeams else emptyTeamsOps
  (appsOps, teamsOps)

def userOpsCount (u : UserOps) : Nat :=
  u.removed.length + u.added.length + u.roleSet.length

def instOpsCount (i : InstOps) : Nat :=
  i.deleted.length + i.added.length + i.updated.length

def permListCount (l : List (String × List String)) : Nat :=
  (l.map (fun p => p.2.length)).sum

def appsOpsCount (a : AppsOps) : Nat :=
  a.toDelete.length + a.toUpdate.length + a.toCreate.length

def teamsOpsCount (t : TeamsOps) : Nat :=
  t.toDelete.length + t.toUpdate.length + t.toCreate.length +
    permListCount t.permsToAdd + permListCount t.permsToRemove +
    userOpsCount t.userOps + instOpsCount t.instOps

/-- C7: running the reconciliation engine when the desired state equals the
remembered state issues zero remote calls: with identical old and new
collections (keyed collections have pairwise-distinct ids), the computed
toCreate/toUpdate/toDelete sets, the per-team permission add/remove sets, and
the nested user and app-instance operations are all empty, and the guarded
diff/apply pass of `playerViewUpdate` issues zero remote operations. -/
theorem claim_C7_idempotence (apps : List AppEntry) (teams : List TeamEntry)
    (happs : (apps.map Entry.key).Nodup)
    (hteams : (teams.map Entry.key).Nodup) :
    updateAppsOps apps apps = emptyAppsOps ∧
    updateTeamsOps apps teams teams = emptyTeamsOps ∧
    playerViewUpdateDiffOps apps apps teams teams =
      (emptyAppsOps, emptyTeamsOps) ∧
    appsOpsCount (playerViewUpdateDiffOps apps apps teams teams).1 +
      teamsOpsCount (playerViewUpdateDiffOps apps apps teams teams).2 = 0 := by
  have happ : updateAppsOps apps apps = emptyAppsOps := by
    unfold updateAppsOps emptyAppsOps
    rw [diffToDelete_self, diffToUpdate_self apps happs, diffToCreate_self]
  have hteam : updateTeamsOps apps teams teams = emptyTeamsOps := by
    unfold updateTeamsOps emptyTeamsOps
    rw [diffToDelete_self, diffToUpdate_self teams hteams,
      diffToCreate_self, diffOldUpdated_self teams hteams]
    simp [permsToAddList, permsToRemoveList, updateUsersOps,
      updateInstancesOps, emptyUserOps, emptyInstOps]
  have hpass : playerViewUpdateDiffOps apps apps teams teams =
      (emptyAppsOps, emptyTeamsOps) := by
    unfold playerViewUpdateDiffOps
    simp
  refine ⟨happ, hteam, hpass, ?_⟩
  rw [hpass]
  simp [appsOpsCount, teamsOpsCount, emptyAppsOps, emptyTeamsOps,
    emptyUserOps, emptyInstOps, permListCount, userOpsCount, instOpsCount]

/-- Witness for C7 at a concrete view state (two applications, one team with a
user and an app instance). -/
theorem claim_C7_idempotence_witness :
    ((([⟨"a1", ⟨"appA", "", "", "", "", "", ""⟩⟩,
        ⟨"a2", ⟨"appB", "u", "i", "true", "false", "", "v"⟩⟩] :
        List AppEntry).map Entry.key).Nodup ∧
      (([⟨"t1", ⟨"Alpha", "View Member", ["perm1"],
          [⟨"u1", "Member"⟩], [⟨"appA", "i1", 1, "a1"⟩]⟩⟩] :
        List TeamEntry).map Entry.key).Nodup) ∧
    (updateAppsOps
        [⟨"a1", ⟨"appA", "", "", "", "", "", ""⟩⟩,
         ⟨"a2", ⟨"appB", "u", "i", "true", "false", "", "v"⟩⟩]
        [⟨"a1", ⟨"appA", "", "", "", "", "", ""⟩⟩,
         ⟨"a2", ⟨"appB", "u", "i", "true", "false", "", "v"⟩⟩] =
        emptyAppsOps ∧
      updateTeamsOps
        [⟨"a1", ⟨"appA", "", "", "", "", "", ""⟩⟩,
         ⟨"a2", ⟨"appB", "u", "i", "true", "false", "", "v"⟩⟩]
        [⟨"t1", ⟨"Alpha", "View Member", ["perm1"],
          [⟨"u1", "Member"⟩], [⟨"appA", "i1", 1, "a1"⟩]⟩⟩]
        [⟨"t1", ⟨"Alpha", "View Member", ["perm1"],
          [⟨"u1", "Member"⟩], [⟨"appA", "i1", 1, "a1"⟩]⟩⟩] =
        emptyTeamsOps ∧
      playerViewUpdateDiffOps
        [⟨"a1", ⟨"appA", "", "", "", "", "", ""⟩⟩,
         ⟨"a2", ⟨"appB", "u", "i", "true", "false", "", "v"⟩⟩]
        [⟨"a1", ⟨"appA", "", "", "", "", "", ""⟩⟩,
         ⟨"a2", ⟨"appB", "u", "i", "true", "false", "", "v"⟩⟩]
        [⟨"t1", ⟨"Alpha", "View Member", ["perm1"],
          [⟨"u1", "Member"⟩], [⟨"appA", "i1", 1, "a1"⟩]⟩⟩]
        [⟨"t1", ⟨"Alpha", "View Member", ["perm1"],
          [⟨"u1", "Member"⟩], [⟨"appA", "i1", 1, "a1"⟩]⟩⟩] =
        (emptyAppsOps, emptyTeamsOps) ∧
      appsOpsCount (playerViewUpdateDiffOps
        [⟨"a1", ⟨"appA", "", "", "", "", "", ""⟩⟩,
         ⟨"a2", ⟨"appB", "u", "i", "true", "false", "", "v"⟩⟩]
        [⟨"a1", ⟨"appA", "", "", "", "", "", ""⟩⟩,
         ⟨"a2", ⟨"appB", "u", "i", "true", "false", "", "v"⟩⟩]
        [⟨"t1", ⟨"Alpha", "View Member", ["perm1"],
          [⟨"u1", "Member"⟩], [⟨"appA", "i1", 1, "a1"⟩]⟩⟩]
        [⟨"t1", ⟨"Alpha", "View Member", ["perm1"],
          [⟨"u1", "Member"⟩], [⟨"appA", "i1", 1, "a1"⟩]⟩⟩]).1 +
      teamsOpsCount (playerViewUpdateDiffOps
        [⟨"a1", ⟨"appA", "", "", "", "", "", ""⟩⟩,
         ⟨"a2", ⟨"appB", "u", "i", "true", "false", "", "v"⟩⟩]
        [⟨"a1", ⟨"appA", "", "", "", "", "", ""⟩⟩,
         ⟨"a2", ⟨"appB", "u", "i", "true", "false", "", "v"⟩⟩]
        [⟨"t1", ⟨"Alpha", "View Member", ["perm1"],
          [⟨"u1", "Member"⟩], [⟨"appA", "i1", 1, "a1"⟩]⟩⟩]
        [⟨"t1", ⟨"Alpha", "View Member", ["perm1"],
          [⟨"u1", "Member"⟩], [⟨"appA", "i1", 1, "a1"⟩]⟩⟩]).2 = 0) :=
  ⟨⟨by decide, by decide⟩,
    claim_C7_idempotence
      [⟨"a1", ⟨"appA", "", "", "", "", "", ""⟩⟩,
       ⟨"a2", ⟨"appB", "u", "i", "true", "false", "", "v"⟩⟩]
      [⟨"t1", ⟨"Alpha", "View Member", ["perm1"],
        [⟨"u1", "Member"⟩], [⟨"appA", "i1", 1, "a1"⟩]⟩⟩]
      (by decide) (by decide)⟩

/-! ## Stable-ordering normalization (`playerViewRead`, and the end of every
create/update cycle, which returns through `playerViewRead`)

Go's `sort.Slice(x, less)` rearranges `x` into nondecreasing order with
respect to `less`; we model it with an insertion sort by a string key, which
produces a permutation of its input that is pairwise nondecreasing on the
key. -/

def insertByKey {α : Type} (key : α → String) (a : α) :
    List α → List α
  | [] => [a]
  | b :: l => if key a ≤ key b then a :: b :: l else b :: insertByKey key a l

def sortByKey {α : Type} (key : α → String) : List α → List α
  | [] => []
  | a :: l => insertByKey key a (sortByKey key l)

theorem mem_insertByKey {α : Type} (key : α → String) (a x : α)
    (l : List α) : x ∈ insertByKey key a l ↔ x = a ∨ x ∈ l := by
  induction l with
  | nil => simp [insertByKey]
  | cons b l ih =>
    unfold insertByKey
    by_cases h : key a ≤ key b
    · rw [if_pos h]
      simp
    · rw [if_neg h]
      simp only [List.mem_cons, ih]
      tauto

theorem perm_insertByKey {α : Type} (key : α → String) (a : α)
    (l : List α) : (insertByKey key a l).Perm (a :: l) := by
  induction l with
  | nil => simp [insertByKey]
  | cons b l ih =>
    unfold insertByKey
    by_cases h : key a ≤ key b
    · rw [if_pos h]
    · rw [if_neg h]
      exact (List.Perm.cons b ih).trans (List.Perm.swap a b l)

theorem perm_sortByKey {α : Type} (key : α → String) (l : List α) :
    (sortByKey key l).Perm l := by
  induction l with
  | nil => simp [sortByKey]
  | cons a l ih =>
    exact (perm_insertByKey key a (sortByKey key l)).trans
      (List.Perm.cons a ih)

theorem pairwise_insertByKey {α : Type} (key : α → String) (a : α)
    (l : List α) (h : l.Pairwise (fun x y => key x ≤ key y)) :
    (insertByKey key a l).Pairwise (fun x y => key x ≤ key y) := by
  induction l with
  | nil => simp [insertByKey]
  | cons b l ih =>
    rw [List.pairwise_cons] at h
    unfold insertByKey
    by_cases hle : key a ≤ key b
    · rw [if_pos hle]
      rw [List.pairwise_cons]
      constructor
      · intro x hx
        rcases List.mem_cons.mp hx with rfl | hxl
        · exact hle
        · exact le_trans hle (h.1 x hxl)
      · exact List.pairwise_cons.mpr h
    · rw [if_neg hle]
      rw [List.pairwise_cons]
      constructor
      · intro x hx
        rcases (mem_insertByKey key a x l).mp hx with rfl | hxl
        · exact le_of_not_le hle
        · exact h.1 x hxl
      · exact ih h.2

theorem pairwise_sortByKey {α : Type} (key : α → String) (l : List α) :
    (sortByKey key l).Pairwise (fun x y => key x ≤ key y) := by
  induction l with
  | nil => simp [sortByKey]
  | cons a l ih => exact pairwise_insertByKey key a (sortByKey key l) ih

/-- The normalization performed by `playerViewRead` before local state is
written back: teams sorted by name, users within each team sorted by user id,
app instances within each team sorted by name, applications sorted by name,
and (when the view's `create_admin_team` flag is set) the server-managed team
named exactly "Admin" skipped when assembling the reported team list. -/
def playerViewReadNormalize (createAdmin : Bool) (apps : List AppEntry)
    (teams : List TeamEntry) : List AppEntry × List TeamEntry :=
  let sortedTeams := sortByKey (fun t => t.fields.name) teams
  let innerSorted := sortedTeams.map (fun t =>
    ⟨t.key, { t.fields with
        users := sortByKey UserInfo.id t.fields.users,
        appInstances := sortByKey AppInstance.name t.fields.appInstances }⟩)
  let sortedApps := sortByKey (fun a => a.fields.name) apps
  let reported := innerSorted.filter
    (fun t => !(t.fields.name == "Admin" && createAdmin))
  (sortedApps, reported)

/-- C3: after any read (and after a create cycle, which returns through
`playerViewRead`), the state handed back has Applications sorted ascending by
name (and a permutation of what was read), Teams sorted ascending by name,
Users within each team sorted ascending by user id, App-Instances within each
team sorted ascending by name; and when the view's create-admin-team flag is
set, no reported team is named exactly "Admin". -/
theorem claim_C3_read_normalization (createAdmin : Bool)
    (apps : List AppEntry) (teams : List TeamEntry) :
    ((playerViewReadNormalize createAdmin apps teams).1.Pairwise
        (fun a b => a.fields.name ≤ b.fields.name)) ∧
    ((playerViewReadNormalize createAdmin apps teams).1.Perm apps) ∧
    ((playerViewReadNormalize createAdmin apps teams).2.Pairwise
        (fun a b => a.fields.name ≤ b.fields.name)) ∧
    (∀ t ∈ (playerViewReadNormalize createAdmin apps teams).2,
        t.fields.users.Pairwise (fun a b => a.id ≤ b.id) ∧
        t.fields.appInstances.Pairwise (fun a b => a.name ≤ b.name)) ∧
    (createAdmin = true →
        ∀ t ∈ (playerViewReadNormalize createAdmin apps teams).2,
        t.fields.name ≠ "Admin") := by
  refine ⟨?_, ?_, ?_, ?_, ?_⟩
  · exact pairwise_sortByKey (fun a => a.fields.name) apps
  · exact perm_sortByKey (fun a => a.fields.name) apps
  · apply List.Pairwise.filter
    have hsorted := pairwise_sortByKey (fun t : TeamEntry => t.fields.name)
      teams
    exact List.Pairwise.map _ (fun {a b} h => h) hsorted
  · intro t ht
    rcases List.mem_filter.mp ht with ⟨hmem, _⟩
    rcases List.mem_map.mp hmem with ⟨t₀, _, rfl⟩
    exact ⟨pairwise_sortByKey UserInfo.id t₀.fields.users,
      pairwise_sortByKey AppInstance.name t₀.fields.appInstances⟩
  · intro hca t ht hname
    rcases List.mem_filter.mp ht with ⟨_, hcond⟩
    rw [hca] at hcond
    simp [hname] at hcond

/-- Witness for C3 at a concrete unsorted view state including a
server-created "Admin" team. -/
theorem claim_C3_read_normalization_witness :
    ((playerViewReadNormalize true
        [⟨"a2", ⟨"Zeta", "", "", "", "", "", ""⟩⟩,
         ⟨"a1", ⟨"Alpha", "", "", "", "", "", ""⟩⟩]
        [⟨"t2", ⟨"Zebra", "View Member", [],
            [⟨"u2", ""⟩, ⟨"u1", ""⟩], [⟨"b", "i2", 2, ""⟩, ⟨"a", "i1", 1, ""⟩]⟩⟩,
         ⟨"t3", ⟨"Admin", "View Admin", [], [], []⟩⟩,
         ⟨"t1", ⟨"Alpha", "View Member", [], [], []⟩⟩]).1.Pairwise
        (fun a b => a.fields.name ≤ b.fields.name)) ∧
    ((playerViewReadNormalize true
        [⟨"a2", ⟨"Zeta", "", "", "", "", "", ""⟩⟩,
         ⟨"a1", ⟨"Alpha", "", "", "", "", "", ""⟩⟩]
        [⟨"t2", ⟨"Zebra", "View Member", [],
            [⟨"u2", ""⟩, ⟨"u1", ""⟩], [⟨"b", "i2", 2, ""⟩, ⟨"a", "i1", 1, ""⟩]⟩⟩,
         ⟨"t3", ⟨"Admin", "View Admin", [], [], []⟩⟩,
         ⟨"t1", ⟨"Alpha", "View Member", [], [], []⟩⟩]).1.Perm
        [⟨"a2", ⟨"Zeta", "", "", "", "", "", ""⟩⟩,
         ⟨"a1", ⟨"Alpha", "", "", "", "", "", ""⟩⟩]) ∧
    ((playerViewReadNormalize true
        [⟨"a2", ⟨"Zeta", "", "", "", "", "", ""⟩⟩,
         ⟨"a1", ⟨"Alpha", "", "", "", "", "", ""⟩⟩]
        [⟨"t2", ⟨"Zebra", "View Member", [],
            [⟨"u2", ""⟩, ⟨"u1", ""⟩], [⟨"b", "i2", 2, ""⟩, ⟨"a", "i1", 1, ""⟩]⟩⟩,
         ⟨"t3", ⟨"Admin", "View Admin", [], [], []⟩⟩,
         ⟨"t1", ⟨"Alpha", "View Member", [], [], []⟩⟩]).2.Pairwise
        (fun a b => a.fields.name ≤ b.fields.name)) ∧
    (∀ t ∈ (playerViewReadNormalize true
        [⟨"a2", ⟨"Zeta", "", "", "", "", "", ""⟩⟩,
         ⟨"a1", ⟨"Alpha", "", "", "", "", "", ""⟩⟩]
        [⟨"t2", ⟨"Zebra", "View Member", [],
            [⟨"u2", ""⟩, ⟨"u1", ""⟩], [⟨"b", "i2", 2, ""⟩, ⟨"a", "i1", 1, ""⟩]⟩⟩,
         ⟨"t3", ⟨"Admin", "View Admin", [], [], []⟩⟩,
         ⟨"t1", ⟨"Alpha", "View Member", [], [], []⟩⟩]).2,
        t.fields.users.Pairwise (fun a b => a.id ≤ b.id) ∧
        t.fields.appInstances.Pairwise (fun a b => a.name ≤ b.name)) ∧
    ((true : Bool) = true →
        ∀ t ∈ (playerViewReadNormalize true
        [⟨"a2", ⟨"Zeta", "", "", "", "", "", ""⟩⟩,
         ⟨"a1", ⟨"Alpha", "", "", "", "", "", ""⟩⟩]
        [⟨"t2", ⟨"Zebra", "View Member", [],
            [⟨"u2", ""⟩, ⟨"u1", ""⟩], [⟨"b", "i2", 2, ""⟩, ⟨"a", "i1", 1, ""⟩]⟩⟩,
         ⟨"t3", ⟨"Admin", "View Admin", [], [], []⟩⟩,
         ⟨"t1", ⟨"Alpha", "View Member", [], [], []⟩⟩]).2,
        t.fields.name ≠ "Admin") :=
  claim_C3_read_normalization true
    [⟨"a2", ⟨"Zeta", "", "", "", "", "", ""⟩⟩,
     ⟨"a1", ⟨"Alpha", "", "", "", "", "", ""⟩⟩]
    [⟨"t2", ⟨"Zebra", "View Member", [],
        [⟨"u2", ""⟩, ⟨"u1", ""⟩], [⟨"b", "i2", 2, ""⟩, ⟨"a", "i1", 1, ""⟩]⟩⟩,
     ⟨"t3", ⟨"Admin", "View Admin", [], [], []⟩⟩,
     ⟨"t1", ⟨"Alpha", "View Member", [], [], []⟩⟩]

/-! ## The centralized client (`internal/client`): token cache, request
executor, status-code policy

`CrucibleClient.GetToken` keeps an `oauth2.Token` cache. The external
`oauth2.Token.Valid` check (non-nil, non-empty, not expired) is modelled by
comparing the token's expiry against the current instant. The reconciliation
call chain is synchronous, so the read-lock fast path and the double-checked
write-lock slow path observe the same cache state; the slow path performs one
password-credentials exchange, modelled as an oracle `Except` value. -/

structure Token where
  accessToken : String
  expiresAt : Nat
deriving DecidableEq, Repr

/-- Models `oauth2.Token.Valid()` for a present token: not yet expired. -/
def Token.valid (t : Token) (now : Nat) : Bool :=
  decide (now < t.expiresAt)

structure AuthErr where
  msg : String
deriving DecidableEq, Repr

/-- `CrucibleClient.GetToken`: returns the result handed to the caller, the
cache state after the call, and the number of token-endpoint network calls
performed. On a valid cached token it returns immediately; otherwise it runs
the exchange, caching the token only on success and leaving the cache
untouched on failure. -/
def GetToken (cache : Option Token) (now : Nat)
    (exchange : Except AuthErr Token) :
    Except AuthErr String × Option Token × Nat :=
  match cache with
  | some t =>
    if t.valid now then (.ok t.accessToken, some t, 0)
    else
      match exchange with
      | .ok tok => (.ok tok.accessToken, some tok, 1)
      | .error e => (.error e, some t, 1)
  | none =>
    match exchange with
    | .ok tok => (.ok tok.accessToken, some tok, 1)
    | .error e => (.error e, none, 1)

/-- C5: when a cached token exists and is not expired, `GetToken` returns that
token with no token-endpoint network call and leaves the cache unchanged; and
when the token exchange fails (the slow path runs because no valid token is
cached), `GetToken` returns the error and the cached-token state is unchanged
— nothing is cached on failure. -/
theorem claim_C5_token_cache (cache : Option Token) (now : Nat)
    (exchange : Except AuthErr Token) :
    (∀ t, cache = some t → t.valid now = true →
        GetToken cache now exchange = (.ok t.accessToken, cache, 0)) ∧
    (∀ e, (∀ t, cache = some t → t.valid now = false) →
        exchange = .error e →
        GetToken cache now exchange = (.error e, cache, 1)) := by
  constructor
  · rintro t rfl hvalid
    simp [GetToken, hvalid]
  · rintro e hinvalid rfl
    cases cache with
    | none => simp [GetToken]
    | some t => simp [GetToken, hinvalid t rfl]

/-- Witness for C5: a fresh cached token is served without a network call, and
a failed exchange on a cold cache changes nothing. -/
theorem claim_C5_token_cache_witness :
    ((∀ t, (some ⟨"tok", 100⟩ : Option Token) = some t →
        t.valid 5 = true →
        GetToken (some ⟨"tok", 100⟩) 5 (.error ⟨"boom"⟩) =
          (.ok t.accessToken, some ⟨"tok", 100⟩, 0)) ∧
      (∀ e, (∀ t, (some ⟨"tok", 100⟩ : Option Token) = some t →
          t.valid 5 = false) →
        (.error ⟨"boom"⟩ : Except AuthErr Token) = .error e →
        GetToken (some ⟨"tok", 100⟩) 5 (.error ⟨"boom"⟩) =
          (.error e, some ⟨"tok", 100⟩, 1))) ∧
    ((∀ t, (none : Option Token) = some t → t.valid 5 = true →
        GetToken none 5 (.error ⟨"boom"⟩) = (.ok t.accessToken, none, 0)) ∧
      (∀ e, (∀ t, (none : Option Token) = some t → t.valid 5 = false) →
        (.error ⟨"boom"⟩ : Except AuthErr Token) = .error e →
        GetToken none 5 (.error ⟨"boom"⟩) = (.error e, none, 1))) :=
  ⟨claim_C5_token_cache (some ⟨"tok", 100⟩) 5 (.error ⟨"boom"⟩),
   claim_C5_token_cache none 5 (.error ⟨"boom"⟩)⟩

/-! `CrucibleClient.DoRequest` serializes the body (when present), obtains a
token via `GetToken`, executes the request, and on a 401 closes the response,
nils out the cached token, obtains a fresh token, re-serializes the body,
rebuilds the request and retries exactly once; whatever the retry returns is
handed to the caller. The server's behaviour is an oracle mapping the attempt
number to a status; the two possible exchanges are oracles too. -/

inductive DoReqOutcome
  | ok (status : Nat)
  | authError (e : AuthErr)
deriving DecidableEq, Repr

structure DoReqResult where
  outcome : DoReqOutcome
  attempts : Nat
  refreshes : Nat
  tokenFetches : Nat
  serializations : Nat
  cacheAfter : Option Token
deriving DecidableEq, Repr

def DoRequest (cache : Option Token) (now : Nat)
    (ex1 ex2 : Except AuthErr Token) (respond : Nat → Nat)
    (hasBody : Bool) : DoReqResult :=
  let serial0 := if hasBody then 1 else 0
  match GetToken cache now ex1 with
  | (.error e, st1, n1) =>
    { outcome := .authError e, attempts := 0, refreshes := 0,
      tokenFetches := n1, serializations := serial0, cacheAfter := st1 }
  | (.ok _, st1, n1) =>
    let s1 := respond 1
    if s1 == 401 then
      match GetToken none now ex2 with
      | (.error e, st2, n2) =>
        { outcome := .authError e, attempts := 1, refreshes := 1,
          tokenFetches := n1 + n2, serializations := serial0,
          cacheAfter := st2 }
      | (.ok _, st2, n2) =>
        let serialRetry := if hasBody then 1 else 0
        { outcome := .ok (respond 2), attempts := 2, refreshes := 1,
          tokenFetches := n1 + n2, serializations := serial0 + serialRetry,
          cacheAfter := st2 }
    else
      { outcome := .ok s1, attempts := 1, refreshes := 0,
        tokenFetches := n1, serializations := serial0, cacheAfter := st1 }

/-- The structured error built by `CrucibleClient.HandleAPIError` (status code
plus a best-effort message extracted from the body; the body is transport
data, so only the status is carried here). -/
structure APIError where
  statusCode : Nat
deriving DecidableEq, Repr

/-- The status-code policy of `DoGet`: anything other than 200 becomes a
`HandleAPIError` result. -/
def doGetCheck (status : Nat) : Except APIError Unit :=
  if status ≠ 200 then .error ⟨status⟩ else .ok ()

/-- The status-code policy of `DoPost`: anything other than 200 or 201 errors. -/
def doPostCheck (status : Nat) : Except APIError Unit :=
  if status ≠ 200 ∧ status ≠ 201 then .error ⟨status⟩ else .ok ()

/-- The status-code policy of `DoPut`: anything other than 200 or 204 errors. -/
def doPutCheck (status : Nat) : Except APIError Unit :=
  if status ≠ 200 ∧ status ≠ 204 then .error ⟨status⟩ else .ok ()

/-- The status-code policy of `DoDelete`: anything other than 200, 204 or 404
errors (a 404 on delete is success). -/
def doDeleteCheck (status : Nat) : Except APIError Unit :=
  if status ≠ 200 ∧ status ≠ 204 ∧ status ≠ 404 then .error ⟨status⟩
  else .ok ()

/-- C6: for every response obtained by the verb helpers, an error is returned
iff the status is outside the allowed set for that verb: `DoGet` errors iff
status ≠ 200; `DoPost` errors iff status ∉ {200, 201}; `DoPut` errors iff
status ∉ {200, 204}; `DoDelete` errors iff status ∉ {200, 204, 404}. -/
theorem claim_C6_status_policy (s : Nat) :
    ((∃ e, doGetCheck s = .error e) ↔ ¬(s = 200)) ∧
    ((∃ e, doPostCheck s = .error e) ↔ ¬(s = 200 ∨ s = 201)) ∧
    ((∃ e, doPutCheck s = .error e) ↔ ¬(s = 200 ∨ s = 204)) ∧
    ((∃ e, doDeleteCheck s = .error e) ↔ ¬(s = 200 ∨ s = 204 ∨ s = 404)) := by
  refine ⟨?_, ?_, ?_, ?_⟩
  · unfold doGetCheck
    split_ifs with h <;> simp [h]
  · unfold doPostCheck
    split_ifs with h <;> simp_all
  · unfold doPutCheck
    split_ifs with h <;> simp_all
  · unfold doDeleteCheck
    split_ifs with h <;> simp_all

/-- C4: the 401-retry discipline of `DoRequest`. In all cases at most two HTTP
attempts and at most one 401-triggered token refresh occur. If the first
response status is 401 (and the fresh token exchange succeeds), the cached
token is cleared and refreshed, the body is re-serialized when present, and
the request is retried exactly once, its status handed to the caller. If the
retry also yields 401, the caller receives the 401 response, which every verb
helper turns into an error. -/
theorem claim_C4_401_retry (cache : Option Token) (now : Nat)
    (ex1 ex2 : Except AuthErr Token) (respond : Nat → Nat) (hasBody : Bool) :
    ((DoRequest cache now ex1 ex2 respond hasBody).attempts ≤ 2 ∧
      (DoRequest cache now ex1 ex2 respond hasBody).refreshes ≤ 1) ∧
    (∀ t1 st1 n1, GetToken cache now ex1 = (.ok t1, st1, n1) →
      respond 1 = 401 →
      ∀ t2 st2 n2, GetToken none now ex2 = (.ok t2, st2, n2) →
      (DoRequest cache now ex1 ex2 respond hasBody).attempts = 2 ∧
      (DoRequest cache now ex1 ex2 respond hasBody).refreshes = 1 ∧
      (DoRequest cache now ex1 ex2 respond hasBody).serializations =
        (if hasBody then 2 else 0) ∧
      (DoRequest cache now ex1 ex2 respond hasBody).outcome =
        .ok (respond 2) ∧
      (DoRequest cache now ex1 ex2 respond hasBody).cacheAfter = st2) ∧
    (∀ t1 st1 n1, GetToken cache now ex1 = (.ok t1, st1, n1) →
      respond 1 = 401 → respond 2 = 401 →
      ∀ t2 st2 n2, GetToken none now ex2 = (.ok t2, st2, n2) →
      (DoRequest cache now ex1 ex2 respond hasBody).outcome = .ok 401 ∧
      (∃ e, doGetCheck 401 = .error e) ∧
      (∃ e, doPostCheck 401 = .error e) ∧
      (∃ e, doPutCheck 401 = .error e) ∧
      (∃ e, doDeleteCheck 401 = .error e)) := by
  refine ⟨?_, ?_, ?_⟩
  · unfold DoRequest
    generalize GetToken cache now ex1 = g1
    obtain ⟨r1, st1, n1⟩ := g1
    cases r1 with
    | error e => simp
    | ok t1 =>
      by_cases hs : (respond 1 == 401) = true
      · generalize GetToken none now ex2 = g2
        obtain ⟨r2, st2, n2⟩ := g2
        cases r2 with
        | error e => simp [hs]
        | ok t2 => simp [hs]
      · simp [hs]
  · intro t1 st1 n1 h1 hresp t2 st2 n2 h2
    have hs : (respond 1 == 401) = true := by simp [hresp]
    unfold DoRequest
    rw [h1, h2]
    cases hasBody <;> simp [hs]
  · intro t1 st1 n1 h1 hresp hresp2 t2 st2 n2 h2
    have hs : (respond 1 == 401) = true := by simp [hresp]
    constructor
    · unfold DoRequest
      rw [h1, h2]
      simp [hs, hresp2]
    · exact ⟨⟨⟨401⟩, rfl⟩, ⟨⟨401⟩, rfl⟩, ⟨⟨401⟩, rfl⟩, ⟨⟨401⟩, rfl⟩⟩

/-- Witness for C4: a server answering 401 to both attempts, with a cold cache
and a working token endpoint. -/
theorem claim_C4_401_retry_witness :
    (((DoRequest none 0 (.ok ⟨"t1", 10⟩) (.ok ⟨"t2", 10⟩)
        (fun _ => 401) true).attempts ≤ 2 ∧
      (DoRequest none 0 (.ok ⟨"t1", 10⟩) (.ok ⟨"t2", 10⟩)
        (fun _ => 401) true).refreshes ≤ 1) ∧
    (∀ t1 st1 n1,
      GetToken none 0 (.ok ⟨"t1", 10⟩) = (.ok t1, st1, n1) →
      (fun _ : Nat => 401) 1 = 401 →
      ∀ t2 st2 n2,
      GetToken none 0 (.ok ⟨"t2", 10⟩) = (.ok t2, st2, n2) →
      (DoRequest none 0 (.ok ⟨"t1", 10⟩) (.ok ⟨"t2", 10⟩)
        (fun _ => 401) true).attempts = 2 ∧
      (DoRequest none 0 (.ok ⟨"t1", 10⟩) (.ok ⟨"t2", 10⟩)
        (fun _ => 401) true).refreshes = 1 ∧
      (DoRequest none 0 (.ok ⟨"t1", 10⟩) (.ok ⟨"t2", 10⟩)
        (fun _ => 401) true).serializations = (if true then 2 else 0) ∧
      (DoRequest none 0 (.ok ⟨"t1", 10⟩) (.ok ⟨"t2", 10⟩)
        (fun _ => 401) true).outcome = .ok ((fun _ : Nat => 401) 2) ∧
      (DoRequest none 0 (.ok ⟨"t1", 10⟩) (.ok ⟨"t2", 10⟩)
        (fun _ => 401) true).cacheAfter = st2) ∧
    (∀ t1 st1 n1,
      GetToken none 0 (.ok ⟨"t1", 10⟩) = (.ok t1, st1, n1) →
      (fun _ : Nat => 401) 1 = 401 → (fun _ : Nat => 401) 2 = 401 →
      ∀ t2 st2 n2,
      GetToken none 0 (.ok ⟨"t2", 10⟩) = (.ok t2, st2, n2) →
      (DoRequest none 0 (.ok ⟨"t1", 10⟩) (.ok ⟨"t2", 10⟩)
        (fun _ => 401) true).outcome = .ok 401 ∧
      (∃ e, doGetCheck 401 = .error e) ∧
      (∃ e, doPostCheck 401 = .error e) ∧
      (∃ e, doPutCheck 401 = .error e) ∧
      (∃ e, doDeleteCheck 401 = .error e))) :=
  claim_C4_401_retry none 0 (.ok ⟨"t1", 10⟩) (.ok ⟨"t2", 10⟩)
    (fun _ => 401) true

/-! ## Base URL normalization (`normalizeAPIURL` and the three getters)

Go strings are modelled as character lists so that the suffix manipulation of
`strings.TrimSuffix` is fully structural. -/

/-- `strings.TrimSuffix`: drops one trailing occurrence of `suffix`, if
present. -/
def trimSuffix (s suffix : List Char) : List Char :=
  if suffix.isSuffixOf s then s.take (s.length - suffix.length) else s

/-- `normalizeAPIURL`: strip a trailing `/`, strip a trailing `/api`, append
`/api/`. -/
def normalizeAPIURL (url : List Char) : List Char :=
  trimSuffix (trimSuffix url ['/']) ['/', 'a', 'p', 'i'] ++
    ['/', 'a', 'p', 'i', '/']

/-- The three configured base URLs of `ProviderConfig`; the getters
`GetPlayerAPIURL`, `GetVMAPIURL` and `GetCasterAPIURL` normalize them
uniformly before every request. -/
structure ProviderConfig where
  playerApiURL : List Char
  vmApiURL : List Char
  casterApiURL : List Char
deriving DecidableEq, Repr

def GetPlayerAPIURL (c : ProviderConfig) : List Char :=
  normalizeAPIURL c.playerApiURL

def GetVMAPIURL (c : ProviderConfig) : List Char :=
  normalizeAPIURL c.vmApiURL

def GetCasterAPIURL (c : ProviderConfig) : List Char :=
  normalizeAPIURL c.casterApiURL

theorem trimSuffix_append (x s : List Char) : trimSuffix (x ++ s) s = x := by
  unfold trimSuffix
  rw [if_pos (by exact List.isSuffixOf_iff_suffix.mpr (List.suffix_append x s))]
  rw [List.length_append, Nat.add_sub_cancel]
  exact List.take_left x s

theorem trimSuffix_of_not_suffix (s x : List Char) (h : ¬ x <:+ s) :
    trimSuffix s x = s := by
  unfold trimSuffix
  rw [if_neg]
  intro hc
  exact h (List.isSuffixOf_iff_suffix.mp hc)

theorem not_slash_suffix_append_api (l : List Char) :
    ¬ (['/'] <:+ l ++ ['/', 'a', 'p', 'i']) := by
  rintro ⟨t, ht⟩
  have hlast := congrArg List.getLast? ht
  have h1 : (t ++ ['/']).getLast? = some '/' := List.getLast?_concat t
  have h2 : (l ++ ['/', 'a', 'p', 'i']).getLast? = some 'i' := by
    have : l ++ ['/', 'a', 'p', 'i'] = (l ++ ['/', 'a', 'p']) ++ ['i'] := by
      simp
    rw [this]
    exact List.getLast?_concat _
  rw [h1, h2] at hlast
  exact absurd (Option.some.inj hlast) (by decide)

/-- C9: for every configured API base URL (Player, VM and Caster alike), the
URL used for requests is the input with any trailing `/` stripped, then a
trailing `/api` stripped, then `/api/` appended — all three getters apply the
same `normalizeAPIURL`; in particular, for a base with no trailing `/` and no
trailing `/api`, the inputs `base`, `base/`, `base/api` and `base/api/` all
normalize to `base/api/`. -/
theorem claim_C9_url_normalization (c : ProviderConfig) (base : List Char)
    (hslash : ¬ (['/'] <:+ base))
    (hapi : ¬ (['/', 'a', 'p', 'i'] <:+ base)) :
    GetPlayerAPIURL c = normalizeAPIURL c.playerApiURL ∧
    GetVMAPIURL c = normalizeAPIURL c.vmApiURL ∧
    GetCasterAPIURL c = normalizeAPIURL c.casterApiURL ∧
    normalizeAPIURL base = base ++ ['/', 'a', 'p', 'i', '/'] ∧
    normalizeAPIURL (base ++ ['/']) = base ++ ['/', 'a', 'p', 'i', '/'] ∧
    normalizeAPIURL (base ++ ['/', 'a', 'p', 'i']) =
      base ++ ['/', 'a', 'p', 'i', '/'] ∧
    normalizeAPIURL (base ++ ['/', 'a', 'p', 'i', '/']) =
      base ++ ['/', 'a', 'p', 'i', '/'] := by
  refine ⟨rfl, rfl, rfl, ?_, ?_, ?_, ?_⟩
  · unfold normalizeAPIURL
    rw [trimSuffix_of_not_suffix base ['/'] hslash,
      trimSuffix_of_not_suffix base ['/', 'a', 'p', 'i'] hapi]
  · unfold normalizeAPIURL
    rw [trimSuffix_append base ['/'],
      trimSuffix_of_not_suffix base ['/', 'a', 'p', 'i'] hapi]
  · unfold normalizeAPIURL
    rw [trimSuffix_of_not_suffix (base ++ ['/', 'a', 'p', 'i']) ['/']
        (not_slash_suffix_append_api base),
      trimSuffix_append base ['/', 'a', 'p', 'i']]
  · unfold normalizeAPIURL
    have hsplit : base ++ ['/', 'a', 'p', 'i', '/'] =
        (base ++ ['/', 'a', 'p', 'i']) ++ ['/'] := by simp
    rw [hsplit, trimSuffix_append (base ++ ['/', 'a', 'p', 'i']) ['/'],
      trimSuffix_append base ['/', 'a', 'p', 'i']]
    exact hsplit

/-- Witness for C9 at the base `"base"` (no trailing slash, no trailing
`/api`). -/
theorem claim_C9_url_normalization_witness :
    (¬ (['/'] <:+ ['b', 'a', 's', 'e']) ∧
      ¬ (['/', 'a', 'p', 'i'] <:+ ['b', 'a', 's', 'e'])) ∧
    (GetPlayerAPIURL ⟨['b', 'a', 's', 'e'], [], []⟩ =
        normalizeAPIURL ['b', 'a', 's', 'e'] ∧
      GetVMAPIURL ⟨['b', 'a', 's', 'e'], [], []⟩ = normalizeAPIURL [] ∧
      GetCasterAPIURL ⟨['b', 'a', 's', 'e'], [], []⟩ = normalizeAPIURL [] ∧
      normalizeAPIURL ['b', 'a', 's', 'e'] =
        ['b', 'a', 's', 'e'] ++ ['/', 'a', 'p', 'i', '/'] ∧
      normalizeAPIURL (['b', 'a', 's', 'e'] ++ ['/']) =
        ['b', 'a', 's', 'e'] ++ ['/', 'a', 'p', 'i', '/'] ∧
      normalizeAPIURL (['b', 'a', 's', 'e'] ++ ['/', 'a', 'p', 'i']) =
        ['b', 'a', 's', 'e'] ++ ['/', 'a', 'p', 'i', '/'] ∧
      normalizeAPIURL (['b', 'a', 's', 'e'] ++ ['/', 'a', 'p', 'i', '/']) =
        ['b', 'a', 's', 'e'] ++ ['/', 'a', 'p', 'i', '/']) :=
  ⟨⟨by decide, by decide⟩,
    claim_C9_url_normalization ⟨['b', 'a', 's', 'e'], [], []⟩
      ['b', 'a', 's', 'e'] (by decide) (by decide)⟩

/-! ## Vlan creation payloads (`CreateVlan`, client and legacy versions)

A JSON object payload is modelled as an association list of keys to JSON
values; a key absent from the list is absent from the serialized object, while
a key mapped to `null` serializes as `"key": null`. `sql.NullInt32` is an
int32 plus its explicit validity flag. -/

inductive JsonVal where
  | null
  | str (s : String)
  | num (n : Int)
deriving DecidableEq, Repr

structure NullInt32 where
  int32 : Int
  valid : Bool
deriving DecidableEq, Repr

structure VlanCreateCommand where
  projectId : String
  partitionId : String
  tag : String
  vlanId : NullInt32
deriving DecidableEq, Repr

/-- The payload built by the client (Plugin Framework) `CreateVlan`: each
optional field is inserted only when set, so an unset field's key is absent. -/
def createVlanPayloadClient (cmd : VlanCreateCommand) :
    List (String × JsonVal) :=
  (if cmd.projectId ≠ "" then [("projectId", JsonVal.str cmd.projectId)]
   else []) ++
  (if cmd.partitionId ≠ "" then
    [("partitionId", JsonVal.str cmd.partitionId)] else []) ++
  (if cmd.tag ≠ "" then [("tag", JsonVal.str cmd.tag)] else []) ++
  (if cmd.vlanId.valid then [("vlanId", JsonVal.num cmd.vlanId.int32)]
   else [])

/-- Modelled from the spec: `util.Ternary` (the `internal/util` package is not
part of the provided sources; only its call sites are). It is the conditional
its call sites read as: `Ternary(cond, a, b)` is `a` when `cond` holds and `b`
otherwise. -/
def ternary (cond : Bool) (a b : JsonVal) : JsonVal :=
  if cond then a else b

/-- The payload built by the legacy (SDK v1) `CreateVlan`: all four keys are
always present, with `util.Ternary(unset, nil, value)` as the value;
`json.Marshal` serializes a `nil` interface value in a map as JSON `null`, so
an unset field's key is present with value `null`. -/
def createVlanPayloadLegacy (cmd : VlanCreateCommand) :
    List (String × JsonVal) :=
  [("projectId",
      ternary (cmd.projectId == "") JsonVal.null (JsonVal.str cmd.projectId)),
   ("partitionId",
      ternary (cmd.partitionId == "") JsonVal.null
        (JsonVal.str cmd.partitionId)),
   ("tag", ternary (cmd.tag == "") JsonVal.null (JsonVal.str cmd.tag)),
   ("vlanId",
      ternary (!cmd.vlanId.valid) JsonVal.null
        (JsonVal.num cmd.vlanId.int32))]

/-- C8 evaluated at the all-unset command (no partition-ID, no project-ID, no
tag, no VLAN-ID): the client version omits every key as the claim states, but
the legacy version — also cited by the claim — keeps all four keys, present
with value `null`, contradicting the claim (and the source comment "Remove
unset fields from payload"). -/
theorem claim_C8_vlan_payload :
    createVlanPayloadClient ⟨"", "", "", ⟨0, false⟩⟩ = [] ∧
    (createVlanPayloadClient ⟨"", "", "", ⟨0, false⟩⟩).lookup "projectId" =
      none ∧
    createVlanPayloadLegacy ⟨"", "", "", ⟨0, false⟩⟩ =
      [("projectId", JsonVal.null), ("partitionId", JsonVal.null),
       ("tag", JsonVal.null), ("vlanId", JsonVal.null)] ∧
    (createVlanPayloadLegacy ⟨"", "", "", ⟨0, false⟩⟩).lookup "projectId" =
      some JsonVal.null ∧
    (createVlanPayloadLegacy ⟨"", "", "", ⟨0, false⟩⟩).lookup "vlanId" =
      some JsonVal.null := by
  refine ⟨rfl, rfl, rfl, rfl, rfl⟩

/-! ## Plugin-Framework view resource `Update` (C10)

The framework `viewResource.Update` reads the plan and the prior state, sends
a single PUT of the view metadata only when name, description or status
changed, leaves the nested application and team collections untouched remotely
(their differential update is an explicit TODO), and writes the plan back as
the new state. `types.String` is nullable, modelled as `Option String`; the
nested `types.List` values are only compared for equality, so the state-map
models stand in for the framework element models. -/

structure ViewResourceModel where
  id : Option String
  name : Option String
  description : Option String
  status : Option String
  createAdminTeam : Option Bool
  applications : List AppEntry
  teams : List TeamEntry
deriving DecidableEq, Repr

inductive RemoteCall where
  | putView (name description status : Option String)
deriving DecidableEq, Repr

/-- `viewResource.Update`: the remote calls it issues and the state it saves. -/
def viewResourceUpdate (plan state : ViewResourceModel) :
    List RemoteCall × ViewResourceModel :=
  let calls :=
    if plan.name ≠ state.name ∨ plan.description ≠ state.description ∨
        plan.status ≠ state.status then
      [RemoteCall.putView plan.name plan.description plan.status]
    else []
  (calls, plan)

/-- C10: every framework `Update` issues at most one remote call — a PUT of
the view metadata, sent exactly when name, description or status changed —
and differences in the nested application or team collections never produce a
remote call; the planned state (nested collections included) is written back
unchanged. -/
theorem claim_C10_framework_update (plan state : ViewResourceModel) :
    (viewResourceUpdate plan state).1.length ≤ 1 ∧
    ((viewResourceUpdate plan state).1 ≠ [] ↔
      (plan.name ≠ state.name ∨ plan.description ≠ state.description ∨
        plan.status ≠ state.status)) ∧
    (∀ call ∈ (viewResourceUpdate plan state).1,
      call = RemoteCall.putView plan.name plan.description plan.status) ∧
    ((plan.name = state.name ∧ plan.description = state.description ∧
        plan.status = state.status) →
      (viewResourceUpdate plan state).1 = []) ∧
    (viewResourceUpdate plan state).2 = plan := by
  unfold viewResourceUpdate
  by_cases h : plan.name ≠ state.name ∨ plan.description ≠ state.description ∨
      plan.status ≠ state.status
  · rw [if_pos h]
    refine ⟨by simp, by simp [h], by simp, ?_, rfl⟩
    rintro ⟨h1, h2, h3⟩
    exact absurd h (by simp [h1, h2, h3])
  · rw [if_neg h]
    exact ⟨by simp, by simp [h], by simp, fun _ => rfl, rfl⟩

/-- Witness for C10: a plan that changes only the team list (metadata equal);
no remote call is made and the planned teams are saved. -/
theorem claim_C10_framework_update_witness :
    (viewResourceUpdate
        ⟨some "v1", some "View", none, some "Active", some true, [],
          [⟨"t1", ⟨"Alpha", "View Member", [], [], []⟩⟩]⟩
        ⟨some "v1", some "View", none, some "Active", some true, [],
          []⟩).1.length ≤ 1 ∧
    ((viewResourceUpdate
        ⟨some "v1", some "View", none, some "Active", some true, [],
          [⟨"t1", ⟨"Alpha", "View Member", [], [], []⟩⟩]⟩
        ⟨some "v1", some "View", none, some "Active", some true, [],
          []⟩).1 ≠ [] ↔
      ((some "View" : Option String) ≠ some "View" ∨
        (none : Option String) ≠ none ∨
        (some "Active" : Option String) ≠ some "Active")) ∧
    (∀ call ∈ (viewResourceUpdate
        ⟨some "v1", some "View", none, some "Active", some true, [],
          [⟨"t1", ⟨"Alpha", "View Member", [], [], []⟩⟩]⟩
        ⟨some "v1", some "View", none, some "Active", some true, [],
          []⟩).1,
      call = RemoteCall.putView (some "View") none (some "Active")) ∧
    (((some "View" : Option String) = some "View" ∧
        (none : Option String) = none ∧
        (some "Active" : Option String) = some "Active") →
      (viewResourceUpdate
        ⟨some "v1", some "View", none, some "Active", some true, [],
          [⟨"t1", ⟨"Alpha", "View Member", [], [], []⟩⟩]⟩
        ⟨some "v1", some "View", none, some "Active", some true, [],
          []⟩).1 = []) ∧
    (viewResourceUpdate
        ⟨some "v1", some "View", none, some "Active", some true, [],
          [⟨"t1", ⟨"Alpha", "View Member", [], [], []⟩⟩]⟩
        ⟨some "v1", some "View", none, some "Active", some true, [],
          []⟩).2 =
      ⟨some "v1", some "View", none, some "Active", some true, [],
        [⟨"t1", ⟨"Alpha", "View Member", [], [], []⟩⟩]⟩ :=
  claim_C10_framework_update
    ⟨some "v1", some "View", none, some "Active", some true, [],
      [⟨"t1", ⟨"Alpha", "View Member", [], [], []⟩⟩]⟩
    ⟨some "v1", some "View", none, some "Active", some true, [], []⟩

end Crucible
